import Mathlib

/-!
Verification of the Thompson-construction regex compiler in `src/regex.rs`.

The Rust code builds an NFA inside a fixed arena of `N` states, each with at
most `TRANSITIONS_PER_STATE` outgoing transitions.  All construction functions
are `const fn`s that thread `(automaton, position)` through a recursive-descent
parser.  Failures in the Rust code are panics (explicit `panic!` calls, array
index-out-of-bounds panics, and `u8` arithmetic-overflow panics under const
evaluation); here every fallible operation returns `Except Err`.

Bytes and indices are modelled as `Nat`, with explicit checks where the Rust
types (`u8` indices / counts, `[T; n]` arrays) would panic:
  * indexing `states[i]` with `i ≥ N` is `Err.stateIndexOutOfBounds`
  * writing `transitions[transition_count]` with `transition_count` at the
    array length is `Err.transitionCapacityExceeded`
  * reading `transitions[i]` past the array length is
    `Err.transitionIndexOutOfBounds`
  * a `u8` addition whose result exceeds 255 is `Err.u8Overflow`
The mutually recursive parser functions (`expr`, `exprLoop`, `rest`, `group`,
`alternate`) take a fuel argument to make recursion structural; running out of
fuel is `Err.fuelExhausted`.
-/

namespace RegexNfa

/-- `TRANSITIONS_PER_STATE` from `regex.rs` line 1. -/
def TRANSITIONS_PER_STATE : Nat := 4

/-- Errors: each constructor corresponds to one panic site in `regex.rs`
(explicit `panic!` messages, array bounds panics, or `u8` overflow under
const evaluation), plus `fuelExhausted` for the fuel instrumentation. -/
inductive Err where
  | stateIndexOutOfBounds
  | transitionCapacityExceeded
  | transitionIndexOutOfBounds
  | inputIndexOutOfBounds
  | u8Overflow
  | unexpectedCharacter
  | unexpectedEndOfInputAfterEscape
  | unknownEscapedCharacter
  | expectedOpenParen
  | unterminatedGroup
  | fuelExhausted
deriving DecidableEq, Repr

/-- `struct Transition` (`regex.rs` lines 7-11): an edge labeled with a byte
(`some b`) or epsilon (`none`), pointing at a state index. -/
structure Transition where
  on_character : Option Nat
  to_state_idx : Nat
deriving DecidableEq, Repr

/-- `Transition::default()`: `on_character: None, to_state_idx: 0`. -/
def Transition.default : Transition := { on_character := none, to_state_idx := 0 }

/-- `struct State` (`regex.rs` lines 13-17): a fixed array of transitions
(always of length `TRANSITIONS_PER_STATE`) and a count of slots in use. -/
structure State where
  transition_count : Nat
  transitions : List Transition
deriving DecidableEq, Repr

/-- `State::default()` (`regex.rs` lines 19-29). -/
def State.default : State :=
  { transition_count := 0
    transitions := List.replicate TRANSITIONS_PER_STATE Transition.default }

/-- `State::add_transition` (`regex.rs` lines 31-38): writes
`transitions[transition_count]` (a panic when the index reaches the array
length, which in the Rust code is always `TRANSITIONS_PER_STATE`) and then
increments `transition_count`. -/
def State.add_transition (st : State) (on_character : Option Nat)
    (to_state_idx : Nat) : Except Err State :=
  if st.transition_count < st.transitions.length then
    .ok { transition_count := st.transition_count + 1
          transitions := st.transitions.set st.transition_count
            { on_character := on_character, to_state_idx := to_state_idx } }
  else
    .error .transitionCapacityExceeded

/-- Reading `transitions[i]` (used by `Nfa::product`); a panic past the end. -/
def State.getTransition (st : State) (i : Nat) : Except Err Transition :=
  match st.transitions.get? i with
  | some t => .ok t
  | none => .error .transitionIndexOutOfBounds

/-- `struct Nfa<const N: usize>` (`regex.rs` lines 41-46).  The arena size `N`
is the length of `states`. -/
structure Nfa where
  states : List State
  state_count : Nat
  accept_idx : Nat
  start_idx : Nat
deriving DecidableEq, Repr

/-- The freshly initialized automaton built at the top of
`Nfa::from_regex_bytes` (`regex.rs` lines 95-106): `N` default states,
`state_count = 0`, `start_idx = 0`, `accept_idx = 0`. -/
def Nfa.init (N : Nat) : Nfa :=
  { states := List.replicate N State.default
    state_count := 0
    accept_idx := 0
    start_idx := 0 }

/-- Reading `self.states[i]`: a panic (`stateIndexOutOfBounds`) when `i ≥ N`. -/
def Nfa.getState (nfa : Nfa) (i : Nat) : Except Err State :=
  match nfa.states.get? i with
  | some s => .ok s
  | none => .error .stateIndexOutOfBounds

/-- Writing `self.states[i] = st` (only performed after a successful read of
the same index, so the `List.set` is always in range where it is used). -/
def Nfa.setState (nfa : Nfa) (i : Nat) (st : State) : Nfa :=
  { nfa with states := nfa.states.set i st }

/-- A `u8` addition as evaluated by the Rust const evaluator: overflow past
255 is a panic. -/
def u8chk (n : Nat) : Except Err Nat :=
  if n ≤ 255 then .ok n else .error .u8Overflow

/-- `Nfa::add_term` (`regex.rs` lines 237-245): allocate states `i = state_count`
and `f = state_count + 1`, add one transition `i → f` labeled `chara`, set
`start_idx = i`, `accept_idx = f`, and bump `state_count` by two. -/
def Nfa.add_term (nfa : Nfa) (chara : Option Nat) : Except Err Nfa :=
  let start := nfa.state_count
  match u8chk (nfa.state_count + 1) with
  | .error e => .error e
  | .ok accept =>
    match nfa.getState start with
    | .error e => .error e
    | .ok st =>
      match st.add_transition chara accept with
      | .error e => .error e
      | .ok st2 =>
        match u8chk (nfa.state_count + 2) with
        | .error e => .error e
        | .ok sc2 =>
          .ok { states := nfa.states.set start st2
                state_count := sc2
                start_idx := start
                accept_idx := accept }

/-- `Nfa::add_empty_term` (`regex.rs` lines 222-224): Thompson rule 1. -/
def Nfa.add_empty_term (nfa : Nfa) : Except Err Nfa :=
  nfa.add_term none

/-- `Nfa::add_alphabet_term` (`regex.rs` lines 233-235): Thompson rule 2. -/
def Nfa.add_alphabet_term (nfa : Nfa) (chara : Nat) : Except Err Nfa :=
  nfa.add_term (some chara)

/-- `Nfa::kleene_star` (`regex.rs` lines 332-357): allocate `i`, `f`; add
epsilon transitions `i → start`, `i → f`, `accept → start`, `accept → f`;
set `start_idx = i`, `accept_idx = f`. -/
def Nfa.kleene_star (nfa : Nfa) : Except Err Nfa :=
  let i_idx := nfa.state_count
  match u8chk (nfa.state_count + 1) with
  | .error e => .error e
  | .ok f_idx =>
    match u8chk (nfa.state_count + 2) with
    | .error e => .error e
    | .ok sc2 =>
      let nfa := { nfa with state_count := sc2 }
      match nfa.getState i_idx with
      | .error e => .error e
      | .ok sti =>
        match sti.add_transition none nfa.start_idx with
        | .error e => .error e
        | .ok sti2 =>
          let nfa := nfa.setState i_idx sti2
          match nfa.getState i_idx with
          | .error e => .error e
          | .ok sti3 =>
            match sti3.add_transition none f_idx with
            | .error e => .error e
            | .ok sti4 =>
              let nfa := nfa.setState i_idx sti4
              match nfa.getState nfa.accept_idx with
              | .error e => .error e
              | .ok sta =>
                match sta.add_transition none nfa.start_idx with
                | .error e => .error e
                | .ok sta2 =>
                  let nfa := nfa.setState nfa.accept_idx sta2
                  match nfa.getState nfa.accept_idx with
                  | .error e => .error e
                  | .ok sta3 =>
                    match sta3.add_transition none f_idx with
                    | .error e => .error e
                    | .ok sta4 =>
                      let nfa := nfa.setState nfa.accept_idx sta4
                      .ok { nfa with start_idx := i_idx, accept_idx := f_idx }

/-- The `while` loop inside `Nfa::product` (`regex.rs` lines 309-316): copy
`states[start_idx].transitions[i]` onto the end of `states[last_accept_idx]`'s
transition list while `i < states[start_idx].transition_count`.  The
condition re-reads the source state every iteration (faithful to the Rust
loop, which matters if `start_idx = last_accept_idx`).  The loop needs at
most `TRANSITIONS_PER_STATE + 1` iterations, so the constant fuel passed by
`product` below can never be the binding constraint when every state's
`transition_count` is at most the transition-array length. -/
def Nfa.productLoop (fuel : Nat) (nfa : Nfa) (last_accept_idx : Nat) (i : Nat) :
    Except Err Nfa :=
  match fuel with
  | 0 => .error .fuelExhausted
  | fuel + 1 =>
    match nfa.getState nfa.start_idx with
    | .error e => .error e
    | .ok src =>
      if i < src.transition_count then
        match src.getTransition i with
        | .error e => .error e
        | .ok t =>
          match nfa.getState last_accept_idx with
          | .error e => .error e
          | .ok dst =>
            match dst.add_transition t.on_character t.to_state_idx with
            | .error e => .error e
            | .ok dst2 =>
              Nfa.productLoop fuel (nfa.setState last_accept_idx dst2)
                last_accept_idx (i + 1)
      else
        .ok nfa

/-- `Nfa::product` (`regex.rs` lines 305-320): move every transition of the
state at `start_idx` onto the state at `last_accept_idx`, zero the source
state's `transition_count`, and set `start_idx = last_start_idx`. -/
def Nfa.product (nfa : Nfa) (last_start_idx last_accept_idx : Nat) :
    Except Err Nfa :=
  match nfa.productLoop (TRANSITIONS_PER_STATE + 2) last_accept_idx 0 with
  | .error e => .error e
  | .ok nfa =>
    match nfa.getState nfa.start_idx with
    | .error e => .error e
    | .ok src =>
      let nfa := nfa.setState nfa.start_idx { src with transition_count := 0 }
      .ok { nfa with start_idx := last_start_idx }

/-- The alphabet match arm of `Nfa::term` (`regex.rs` lines 145-167):
ASCII letters, digits, and the fixed punctuation set. -/
def isAlphabetByte (b : Nat) : Bool :=
  (97 ≤ b && b ≤ 122) || (65 ≤ b && b ≤ 90) || (48 ≤ b && b ≤ 57) ||
  b = 33 || b = 64 || b = 35 || b = 37 || b = 38 || b = 45 || b = 61 ||
  b = 43 || b = 59 || b = 58 || b = 34 || b = 44 || b = 60 || b = 62 ||
  b = 47 || b = 96 || b = 126 || b = 32 || b = 39

/-- The escapable-metacharacter arm of `Nfa::escaped_term`
(`regex.rs` lines 205-208): `$ ^ ( ) { } [ ] | ? *` and backslash. -/
def isEscapableMeta (b : Nat) : Bool :=
  b = 36 || b = 94 || b = 40 || b = 41 || b = 123 || b = 125 ||
  b = 91 || b = 93 || b = 124 || b = 63 || b = 42 || b = 92

/-- `Nfa::escaped_term` (`regex.rs` lines 200-213): `n` and `t` yield line
feed (10) and tab (9); an escapable metacharacter yields itself; any other
byte panics with "unexpected escaped character value"; end of input panics
with "unexpected end of input: expected escaped character". -/
def Nfa.escaped_term (nfa : Nfa) (input : List Nat) (idx : Nat) :
    Except Err (Nfa × Nat) :=
  match input.get? idx with
  | none => .error .unexpectedEndOfInputAfterEscape
  | some b =>
    if b = 110 then
      match nfa.add_alphabet_term 10 with
      | .error e => .error e
      | .ok nfa => .ok (nfa, idx + 1)
    else if b = 116 then
      match nfa.add_alphabet_term 9 with
      | .error e => .error e
      | .ok nfa => .ok (nfa, idx + 1)
    else if isEscapableMeta b then
      match nfa.add_alphabet_term b with
      | .error e => .error e
      | .ok nfa => .ok (nfa, idx + 1)
    else
      .error .unknownEscapedCharacter

/-- `Nfa::postfix` (`regex.rs` lines 177-183, named here for the star it
consumes): apply `kleene_star` when the next byte is `*` (byte 42). -/
def Nfa.starRule (nfa : Nfa) (input : List Nat) (idx : Nat) :
    Except Err (Nfa × Nat) :=
  if input.get? idx = some 42 then
    match nfa.kleene_star with
    | .error e => .error e
    | .ok nfa => .ok (nfa, idx + 1)
  else
    .ok (nfa, idx)

/-- `Nfa::term` (`regex.rs` lines 142-175): dispatch on the next byte.
Backslash (92) starts an escape then the star rule; an alphabet byte yields a
single-symbol fragment then the star rule; end of input returns the automaton
unchanged; any other byte yields an empty-string fragment without consuming
input (and without the star rule, matching the early `return`). -/
def Nfa.term (nfa : Nfa) (input : List Nat) (idx : Nat) :
    Except Err (Nfa × Nat) :=
  match input.get? idx with
  | none => .ok (nfa, idx)
  | some b =>
    if b = 92 then
      match nfa.escaped_term input (idx + 1) with
      | .error e => .error e
      | .ok (nfa, idx2) => nfa.starRule input idx2
    else if isAlphabetByte b then
      match nfa.add_alphabet_term b with
      | .error e => .error e
      | .ok nfa => nfa.starRule input (idx + 1)
    else
      match nfa.add_empty_term with
      | .error e => .error e
      | .ok nfa => .ok (nfa, idx)

/-- The five mutually recursive parser functions of `regex.rs` (`expr`,
the `while` loop inside `expr`, `rest`, `group`, `alternate`), bundled at a
given fuel.  Bundling makes the mutual recursion a single structural
recursion on the fuel, so that applications at literal fuel reduce. -/
structure ParserPack where
  expr : Nfa → List Nat → Nat → Except Err (Nfa × Nat)
  exprLoop : Nfa → List Nat → Nat → Except Err (Nfa × Nat)
  rest : Nfa → List Nat → Nat → Except Err (Nfa × Nat)
  group : Nfa → List Nat → Nat → Except Err (Nfa × Nat)
  alternate : Nfa → List Nat → Nat → Except Err (Nfa × Nat)

/-- The bodies of the five parser functions; each nested parser call uses
the pack at one unit less fuel.  See the doc comments on `Nfa.expr`,
`Nfa.exprLoop`, `Nfa.rest`, `Nfa.group`, `Nfa.alternate` below for the
correspondence with `regex.rs`. -/
def parserPack : Nat → ParserPack
  | 0 =>
    { expr := fun _ _ _ => .error .fuelExhausted
      exprLoop := fun _ _ _ => .error .fuelExhausted
      rest := fun _ _ _ => .error .fuelExhausted
      group := fun _ _ _ => .error .fuelExhausted
      alternate := fun _ _ _ => .error .fuelExhausted }
  | fuel + 1 =>
    let p := parserPack fuel
    { expr := fun nfa input idx =>
        match nfa.term input idx with
        | .error e => .error e
        | .ok (nfa, idx) => p.exprLoop nfa input idx
      exprLoop := fun nfa input idx =>
        if idx < input.length then
          match p.rest nfa input idx with
          | .error e => .error e
          | .ok (nfa2, idx2) =>
            if idx = idx2 then .ok (nfa2, idx2)
            else p.exprLoop nfa2 input idx2
        else
          .ok (nfa, input.length)
      rest := fun nfa input idx =>
        let last_start_idx := nfa.start_idx
        let last_accept_idx := nfa.accept_idx
        if input.get? idx = some 40 then
          p.group nfa input idx
        else if input.get? idx = some 124 then
          p.alternate nfa input idx
        else
          match nfa.term input idx with
          | .error e => .error e
          | .ok (nfa, idx) =>
            match nfa.product last_start_idx last_accept_idx with
            | .error e => .error e
            | .ok nfa => .ok (nfa, idx)
      group := fun nfa input idx =>
        match input.get? idx with
        | none => .error .inputIndexOutOfBounds
        | some b =>
          if b ≠ 40 then .error .expectedOpenParen
          else
            let last_start_idx := nfa.start_idx
            let last_accept_idx := nfa.accept_idx
            match p.expr nfa input (idx + 1) with
            | .error e => .error e
            | .ok (nfa, idx) =>
              if input.get? idx = some 41 then
                match nfa.starRule input (idx + 1) with
                | .error e => .error e
                | .ok (nfa, idx) =>
                  match nfa.product last_start_idx last_accept_idx with
                  | .error e => .error e
                  | .ok nfa => .ok (nfa, idx)
              else
                .error .unterminatedGroup
      alternate := fun nfa input idx =>
        let prev_start_idx := nfa.start_idx
        let prev_accept_idx := nfa.accept_idx
        match u8chk (nfa.state_count + 2) with
        | .error e => .error e
        | .ok sc2 =>
          let nfa := { nfa with start_idx := nfa.state_count,
                                accept_idx := nfa.state_count,
                                state_count := sc2 }
          match p.expr nfa input (idx + 1) with
          | .error e => .error e
          | .ok (nfa, idx) =>
            let i_idx := nfa.state_count
            match u8chk (nfa.state_count + 1) with
            | .error e => .error e
            | .ok f_idx =>
              match u8chk (nfa.state_count + 2) with
              | .error e => .error e
              | .ok sc3 =>
                let nfa := { nfa with state_count := sc3 }
                match nfa.getState i_idx with
                | .error e => .error e
                | .ok sti =>
                  match sti.add_transition none prev_start_idx with
                  | .error e => .error e
                  | .ok sti2 =>
                    let nfa := nfa.setState i_idx sti2
                    match nfa.getState i_idx with
                    | .error e => .error e
                    | .ok sti3 =>
                      match sti3.add_transition none nfa.start_idx with
                      | .error e => .error e
                      | .ok sti4 =>
                        let nfa := nfa.setState i_idx sti4
                        match nfa.getState prev_accept_idx with
                        | .error e => .error e
                        | .ok stp =>
                          match stp.add_transition none f_idx with
                          | .error e => .error e
                          | .ok stp2 =>
                            let nfa := nfa.setState prev_accept_idx stp2
                            match nfa.getState nfa.accept_idx with
                            | .error e => .error e
                            | .ok sta =>
                              match sta.add_transition none f_idx with
                              | .error e => .error e
                              | .ok sta2 =>
                                let nfa := nfa.setState nfa.accept_idx sta2
                                .ok ({ nfa with start_idx := i_idx,
                                                accept_idx := f_idx }, idx) }

/-- `Nfa::expr` (`regex.rs` lines 128-140): parse a term, then the loop. -/
def Nfa.expr (fuel : Nat) (nfa : Nfa) (input : List Nat) (idx : Nat) :
    Except Err (Nfa × Nat) :=
  (parserPack fuel).expr nfa input idx

/-- The `while idx < input.len()` loop of `Nfa::expr` (`regex.rs` lines
130-139): repeatedly apply `rest`; return as soon as a call makes no
progress; on normal exit return position `input.len()`. -/
def Nfa.exprLoop (fuel : Nat) (nfa : Nfa) (input : List Nat) (idx : Nat) :
    Except Err (Nfa × Nat) :=
  (parserPack fuel).exprLoop nfa input idx

/-- `Nfa::rest` (`regex.rs` lines 185-198): `(` enters a group, `|` an
alternation; anything else parses one more term and concatenates it onto the
fragment recorded before the term was parsed. -/
def Nfa.rest (fuel : Nat) (nfa : Nfa) (input : List Nat) (idx : Nat) :
    Except Err (Nfa × Nat) :=
  (parserPack fuel).rest nfa input idx

/-- `Nfa::group` (`regex.rs` lines 360-375): require `(` (byte 40; reading
`input[idx]` out of range is itself a panic), parse the inner expression,
require `)` (byte 41), allow a trailing star, then concatenate. -/
def Nfa.group (fuel : Nat) (nfa : Nfa) (input : List Nat) (idx : Nat) :
    Except Err (Nfa × Nat) :=
  (parserPack fuel).group nfa input idx

/-- `Nfa::alternate` (`regex.rs` lines 263-297): record the previous
fragment, bump `state_count` by two with `start_idx = accept_idx =` the old
`state_count` (no transition is written to either fresh state here, and no
bounds check runs at this allocation), parse the right-hand expression past
the `|`, then allocate `i` and `f`, wire the four epsilon transitions, and
set `start_idx = i`, `accept_idx = f`. -/
def Nfa.alternate (fuel : Nat) (nfa : Nfa) (input : List Nat) (idx : Nat) :
    Except Err (Nfa × Nat) :=
  (parserPack fuel).alternate nfa input idx

/-- Fuel comfortably larger than the maximum nesting depth plus loop
iteration count the parser can reach on `input`; every nested parser call and
every loop iteration consumes one unit. -/
def parseFuel (input : List Nat) : Nat :=
  4 * input.length + 8

/-- `Nfa::from_regex_bytes` (`regex.rs` lines 93-114): parse from position 0
on the freshly initialized automaton; any unconsumed remainder is the
"unexpected character" panic. -/
def Nfa.from_regex_bytes (N : Nat) (input : List Nat) : Except Err Nfa :=
  match Nfa.expr (parseFuel input) (Nfa.init N) input 0 with
  | .error e => .error e
  | .ok (nfa, idx) =>
    if idx = input.length then .ok nfa else .error .unexpectedCharacter

/-- Unchecked append of one transition, used to STATE what a successful
`State.add_transition` produced (the checked operation equals this exactly
when `transition_count < transitions.length`). -/
def State.pushT (st : State) (t : Transition) : State :=
  { transition_count := st.transition_count + 1
    transitions := st.transitions.set st.transition_count t }

/-- Unchecked append of a list of transitions in order, used to state what
the copy loop of `Nfa::product` produced. -/
def State.pushMany (st : State) (ts : List Transition) : State :=
  ts.foldl State.pushT st

/-- The byte a recognized escape sequence denotes, as the claim states it:
`\n` is line feed (10), `\t` is tab (9), and an escapable metacharacter
denotes itself. -/
def escapedByteValue (b : Nat) : Nat :=
  if b = 110 then 10 else if b = 116 then 9 else b

/-- The cursor invariant: both fragment cursors address allocated states,
except in the no-states-yet configuration where all three fields are `0`. -/
def Nfa.cursorsOk (nfa : Nfa) : Prop :=
  (nfa.start_idx < nfa.state_count ∧ nfa.accept_idx < nfa.state_count) ∨
  (nfa.state_count = 0 ∧ nfa.start_idx = 0 ∧ nfa.accept_idx = 0)

instance (nfa : Nfa) : Decidable nfa.cursorsOk := by
  unfold Nfa.cursorsOk
  infer_instance

instance {ε α : Type} [DecidableEq ε] [DecidableEq α] : DecidableEq (Except ε α)
  | .ok a, .ok b =>
    if h : a = b then .isTrue (by rw [h]) else .isFalse (by intro hc; cases hc; exact h rfl)
  | .error a, .error b =>
    if h : a = b then .isTrue (by rw [h]) else .isFalse (by intro hc; cases hc; exact h rfl)
  | .ok _, .error _ => .isFalse (by intro hc; cases hc)
  | .error _, .ok _ => .isFalse (by intro hc; cases hc)

/-! ### Concrete sample automata (used by witnesses and counterexamples) -/

/-- The automaton `from_regex_bytes::<2>(b"a")` produces. -/
def sampleA : Nfa :=
  { states := [State.default.pushT { on_character := some 97, to_state_idx := 1 },
               State.default]
    state_count := 2
    accept_idx := 1
    start_idx := 0 }

/-- The automaton `from_regex_bytes::<16>(b"a")` produces. -/
def sampleA16 : Nfa :=
  { states := (List.replicate 16 State.default).set 0
      (State.default.pushT { on_character := some 97, to_state_idx := 1 })
    state_count := 2
    accept_idx := 1
    start_idx := 0 }

/-- The automaton reached after `alternate`, starting from `sampleA16` on
input `a|b`, has allocated its placeholder pair (states 2, 3) and compiled
the right-hand `b` (states 4, 5). -/
def rhsSample : Nfa :=
  { states := sampleA16.states.set 4
      (State.default.pushT { on_character := some 98, to_state_idx := 5 })
    state_count := 6
    accept_idx := 5
    start_idx := 4 }

/-- The automaton `rest` produces from `sampleA16` on input `ab*` at
position 1: the star wrapped only the `b` fragment (states 2, 3, the loop
pair 4, 5), after which concatenation moved state 4's transitions onto
state 1 and cleared state 4's count. -/
def starSample : Nfa :=
  { states := ((((sampleA16.states.set 2
        (State.default.pushT { on_character := some 98, to_state_idx := 3 })).set 3
        ((State.default.pushT { on_character := none, to_state_idx := 2 }).pushT
          { on_character := none, to_state_idx := 5 })).set 1
        ((State.default.pushT { on_character := none, to_state_idx := 2 }).pushT
          { on_character := none, to_state_idx := 5 })).set 4
        { transition_count := 0
          transitions := ((List.replicate TRANSITIONS_PER_STATE Transition.default).set 0
              { on_character := none, to_state_idx := 2 }).set 1
              { on_character := none, to_state_idx := 5 } })
    state_count := 6
    accept_idx := 5
    start_idx := 0 }

/-- The automaton `alternate` returns from `sampleA16` on input `a|b`:
states 2 and 3 are the silently allocated placeholder pair, states 4 and 5
the `b` fragment, state 6 the new start `i` (epsilon edges to 0 and 4), and
state 7 the new accept `f`. -/
def altSample : Nfa :=
  { states := (((((List.replicate 16 State.default).set 0
        (State.default.pushT { on_character := some 97, to_state_idx := 1 })).set 4
        (State.default.pushT { on_character := some 98, to_state_idx := 5 })).set 6
        ((State.default.pushT { on_character := none, to_state_idx := 0 }).pushT
          { on_character := none, to_state_idx := 4 })).set 1
        (State.default.pushT { on_character := none, to_state_idx := 7 })).set 5
        (State.default.pushT { on_character := none, to_state_idx := 7 })
    state_count := 8
    accept_idx := 7
    start_idx := 6 }

/-- The parse state `expr` reaches on input `a)` with arena size 8: the `a`
fragment (states 0, 1), plus the empty-string fragment (states 2, 3) the
stray `)` provoked, already concatenated; the parser stopped at position 1. -/
def trailSample : Nfa :=
  { states := (((List.replicate 8 State.default).set 0
        (State.default.pushT { on_character := some 97, to_state_idx := 1 })).set 1
        (State.default.pushT { on_character := none, to_state_idx := 3 })).set 2
        { transition_count := 0
          transitions := (List.replicate TRANSITIONS_PER_STATE Transition.default).set 0
            { on_character := none, to_state_idx := 3 } }
    state_count := 4
    accept_idx := 3
    start_idx := 0 }

/-- The automaton reached while compiling `ab` just before the concatenation
step: fragments for `a` (states 0, 1) and `b` (states 2, 3). -/
def prodIn : Nfa :=
  { states := ((List.replicate 8 State.default).set 0
        (State.default.pushT { on_character := some 97, to_state_idx := 1 })).set 2
        (State.default.pushT { on_character := some 98, to_state_idx := 3 })
    state_count := 4
    accept_idx := 3
    start_idx := 2 }

/-- What `product prodIn 0 1` returns: state 2's transition moved onto
state 1, state 2's count cleared, `start_idx` back to 0. -/
def prodOut : Nfa :=
  { states := (((List.replicate 8 State.default).set 0
        (State.default.pushT { on_character := some 97, to_state_idx := 1 })).set 1
        (State.default.pushT { on_character := some 98, to_state_idx := 3 })).set 2
        { transition_count := 0
          transitions := (List.replicate TRANSITIONS_PER_STATE Transition.default).set 0
            { on_character := some 98, to_state_idx := 3 } }
    state_count := 4
    accept_idx := 3
    start_idx := 0 }

/-! ### Unfolding equations for the parser functions -/

theorem Nfa.expr_zero (nfa : Nfa) (input : List Nat) (idx : Nat) :
    Nfa.expr 0 nfa input idx = .error .fuelExhausted := rfl

theorem Nfa.exprLoop_zero (nfa : Nfa) (input : List Nat) (idx : Nat) :
    Nfa.exprLoop 0 nfa input idx = .error .fuelExhausted := rfl

theorem Nfa.rest_zero (nfa : Nfa) (input : List Nat) (idx : Nat) :
    Nfa.rest 0 nfa input idx = .error .fuelExhausted := rfl

theorem Nfa.group_zero (nfa : Nfa) (input : List Nat) (idx : Nat) :
    Nfa.group 0 nfa input idx = .error .fuelExhausted := rfl

theorem Nfa.alternate_zero (nfa : Nfa) (input : List Nat) (idx : Nat) :
    Nfa.alternate 0 nfa input idx = .error .fuelExhausted := rfl

theorem Nfa.expr_succ (fuel : Nat) (nfa : Nfa) (input : List Nat) (idx : Nat) :
    Nfa.expr (fuel + 1) nfa input idx =
      (match nfa.term input idx with
       | .error e => .error e
       | .ok (nfa, idx) => Nfa.exprLoop fuel nfa input idx) := rfl

theorem Nfa.exprLoop_succ (fuel : Nat) (nfa : Nfa) (input : List Nat) (idx : Nat) :
    Nfa.exprLoop (fuel + 1) nfa input idx =
      (if idx < input.length then
        match Nfa.rest fuel nfa input idx with
        | .error e => .error e
        | .ok (nfa2, idx2) =>
          if idx = idx2 then .ok (nfa2, idx2)
          else Nfa.exprLoop fuel nfa2 input idx2
      else
        .ok (nfa, input.length)) := rfl

theorem Nfa.rest_succ (fuel : Nat) (nfa : Nfa) (input : List Nat) (idx : Nat) :
    Nfa.rest (fuel + 1) nfa input idx =
      (if input.get? idx = some 40 then
        Nfa.group fuel nfa input idx
      else if input.get? idx = some 124 then
        Nfa.alternate fuel nfa input idx
      else
        match nfa.term input idx with
        | .error e => .error e
        | .ok (nfa2, idx2) =>
          match nfa2.product nfa.start_idx nfa.accept_idx with
          | .error e => .error e
          | .ok nfa3 => .ok (nfa3, idx2)) := rfl

theorem Nfa.group_succ (fuel : Nat) (nfa : Nfa) (input : List Nat) (idx : Nat) :
    Nfa.group (fuel + 1) nfa input idx =
      (match input.get? idx with
       | none => .error .inputIndexOutOfBounds
       | some b =>
         if b ≠ 40 then .error .expectedOpenParen
         else
           match Nfa.expr fuel nfa input (idx + 1) with
           | .error e => .error e
           | .ok (nfa2, idx2) =>
             if input.get? idx2 = some 41 then
               match nfa2.starRule input (idx2 + 1) with
               | .error e => .error e
               | .ok (nfa3, idx3) =>
                 match nfa3.product nfa.start_idx nfa.accept_idx with
                 | .error e => .error e
                 | .ok nfa4 => .ok (nfa4, idx3)
             else
               .error .unterminatedGroup) := rfl

theorem Nfa.alternate_succ (fuel : Nat) (nfa : Nfa) (input : List Nat) (idx : Nat) :
    Nfa.alternate (fuel + 1) nfa input idx =
      (match u8chk (nfa.state_count + 2) with
       | .error e => .error e
       | .ok sc2 =>
         match Nfa.expr fuel { nfa with start_idx := nfa.state_count,
                                        accept_idx := nfa.state_count,
                                        state_count := sc2 } input (idx + 1) with
         | .error e => .error e
         | .ok (m, idx2) =>
           match u8chk (m.state_count + 1) with
           | .error e => .error e
           | .ok f_idx =>
             match u8chk (m.state_count + 2) with
             | .error e => .error e
             | .ok sc3 =>
               match ({ m with state_count := sc3 }).getState m.state_count with
               | .error e => .error e
               | .ok sti =>
                 match sti.add_transition none nfa.start_idx with
                 | .error e => .error e
                 | .ok sti2 =>
                   match (({ m with state_count := sc3 }).setState m.state_count
                       sti2).getState m.state_count with
                   | .error e => .error e
                   | .ok sti3 =>
                     match sti3.add_transition none m.start_idx with
                     | .error e => .error e
                     | .ok sti4 =>
                       match ((({ m with state_count := sc3 }).setState m.state_count
                           sti2).setState m.state_count sti4).getState nfa.accept_idx with
                       | .error e => .error e
                       | .ok stp =>
                         match stp.add_transition none f_idx with
                         | .error e => .error e
                         | .ok stp2 =>
                           match (((({ m with state_count := sc3 }).setState m.state_count
                               sti2).setState m.state_count sti4).setState nfa.accept_idx
                               stp2).getState m.accept_idx with
                           | .error e => .error e
                           | .ok sta =>
                             match sta.add_transition none f_idx with
                             | .error e => .error e
                             | .ok sta2 =>
                               .ok ({ states := (((m.states.set m.state_count sti2).set
                                          m.state_count sti4).set nfa.accept_idx stp2).set
                                          m.accept_idx sta2
                                      state_count := sc3
                                      accept_idx := f_idx
                                      start_idx := m.state_count }, idx2)) := rfl

/-! ### Basic lemmas about the primitive operations -/

theorem List.set_self {α : Type} : ∀ (l : List α) (i : Nat) (a : α),
    l.get? i = some a → l.set i a = l
  | [], i, a, h => by simp at h
  | x :: xs, 0, a, h => by
      simp only [List.get?] at h
      injection h with hx
      rw [← hx]
      rfl
  | x :: xs, i + 1, a, h => by
      simp only [List.get?] at h
      simp [List.set_self xs i a h]

theorem u8chk_ok {n v : Nat} (h : u8chk n = .ok v) : v = n ∧ n ≤ 255 := by
  unfold u8chk at h
  split at h
  · cases h; exact ⟨rfl, by assumption⟩
  · cases h

theorem u8chk_le {n : Nat} (h : n ≤ 255) : u8chk n = .ok n := by
  simp [u8chk, h]

theorem Nfa.getState_ok {nfa : Nfa} {i : Nat} {st : State}
    (h : nfa.getState i = .ok st) :
    nfa.states.get? i = some st ∧ i < nfa.states.length := by
  unfold Nfa.getState at h
  cases hg : nfa.states.get? i with
  | none => rw [hg] at h; cases h
  | some s =>
    rw [hg] at h
    cases h
    exact ⟨rfl, List.get?_eq_some.mp hg |>.1⟩

theorem Nfa.getState_eq {nfa : Nfa} {i : Nat} {st : State}
    (h : nfa.states.get? i = some st) : nfa.getState i = .ok st := by
  unfold Nfa.getState
  rw [h]

theorem State.add_transition_ok {st : State} {c : Option Nat} {t : Nat}
    (h : st.transition_count < st.transitions.length) :
    st.add_transition c t = .ok (st.pushT { on_character := c, to_state_idx := t }) := by
  simp [State.add_transition, State.pushT, h]

theorem Nfa.setState_state_count (nfa : Nfa) (i : Nat) (st : State) :
    (nfa.setState i st).state_count = nfa.state_count := rfl

theorem Nfa.setState_start_idx (nfa : Nfa) (i : Nat) (st : State) :
    (nfa.setState i st).start_idx = nfa.start_idx := rfl

theorem Nfa.setState_accept_idx (nfa : Nfa) (i : Nat) (st : State) :
    (nfa.setState i st).accept_idx = nfa.accept_idx := rfl

theorem Nfa.getState_setState_self {nfa : Nfa} {i : Nat} (st : State)
    (h : i < nfa.states.length) :
    (nfa.setState i st).getState i = .ok st := by
  unfold Nfa.getState Nfa.setState
  rw [List.get?_set_eq_of_lt st h]

theorem Nfa.getState_setState_ne {nfa : Nfa} {i j : Nat} (st : State)
    (h : i ≠ j) :
    (nfa.setState i st).getState j = nfa.getState j := by
  unfold Nfa.getState Nfa.setState
  rw [List.get?_set_ne st nfa.states h]

/-! ### Characterizations of the construction primitives -/

theorem Nfa.add_term_eq {nfa : Nfa} {st : State} (c : Option Nat)
    (hget : nfa.getState nfa.state_count = .ok st)
    (hcap : st.transition_count < st.transitions.length)
    (hu8 : nfa.state_count + 2 ≤ 255) :
    nfa.add_term c = .ok
      { states := nfa.states.set nfa.state_count
          (st.pushT { on_character := c, to_state_idx := nfa.state_count + 1 })
        state_count := nfa.state_count + 2
        start_idx := nfa.state_count
        accept_idx := nfa.state_count + 1 } := by
  unfold Nfa.add_term
  simp only [u8chk_le (show nfa.state_count + 1 ≤ 255 by omega), hget,
    State.add_transition_ok hcap, u8chk_le hu8]

theorem Nfa.add_term_fields {nfa : Nfa} {c : Option Nat} {m : Nfa}
    (h : nfa.add_term c = .ok m) :
    m.start_idx = nfa.state_count ∧ m.accept_idx = nfa.state_count + 1 ∧
    m.state_count = nfa.state_count + 2 ∧ m.states.length = nfa.states.length := by
  simp only [Nfa.add_term] at h
  split at h
  · cases h
  next accept hu1 =>
    split at h
    · cases h
    next st hg =>
      split at h
      · cases h
      next st2 ha =>
        split at h
        · cases h
        next sc2 hu2 =>
          cases h
          obtain ⟨rfl, -⟩ := u8chk_ok hu1
          obtain ⟨rfl, -⟩ := u8chk_ok hu2
          exact ⟨rfl, rfl, rfl, by simp⟩

theorem Nfa.kleene_star_fields {nfa m : Nfa} (h : nfa.kleene_star = .ok m) :
    m.start_idx = nfa.state_count ∧ m.accept_idx = nfa.state_count + 1 ∧
    m.state_count = nfa.state_count + 2 ∧ m.states.length = nfa.states.length := by
  simp only [Nfa.kleene_star] at h
  split at h
  · cases h
  next f_idx hu1 =>
    split at h
    · cases h
    next sc2 hu2 =>
      split at h
      · cases h
      next sti hg1 =>
        split at h
        · cases h
        next sti2 ha1 =>
          split at h
          · cases h
          next sti3 hg2 =>
            split at h
            · cases h
            next sti4 ha2 =>
              split at h
              · cases h
              next sta hg3 =>
                split at h
                · cases h
                next sta2 ha3 =>
                  split at h
                  · cases h
                  next sta3 hg4 =>
                    split at h
                    · cases h
                    next sta4 ha4 =>
                      cases h
                      obtain ⟨rfl, -⟩ := u8chk_ok hu1
                      obtain ⟨rfl, -⟩ := u8chk_ok hu2
                      exact ⟨rfl, rfl, rfl, by simp [Nfa.setState]⟩

theorem Nfa.add_term_cursors {nfa : Nfa} {c : Option Nat} {m : Nfa}
    (h : nfa.add_term c = .ok m) :
    m.cursorsOk ∧ nfa.state_count ≤ m.state_count := by
  obtain ⟨h1, h2, h3, -⟩ := Nfa.add_term_fields h
  exact ⟨Or.inl ⟨by omega, by omega⟩, by omega⟩

theorem Nfa.kleene_star_cursors {nfa m : Nfa} (h : nfa.kleene_star = .ok m) :
    m.cursorsOk ∧ nfa.state_count ≤ m.state_count := by
  obtain ⟨h1, h2, h3, -⟩ := Nfa.kleene_star_fields h
  exact ⟨Or.inl ⟨by omega, by omega⟩, by omega⟩

theorem Nfa.starRule_cursors {nfa : Nfa} {input : List Nat} {idx : Nat}
    {m : Nfa} {j : Nat} (hI : nfa.cursorsOk)
    (h : nfa.starRule input idx = .ok (m, j)) :
    m.cursorsOk ∧ nfa.state_count ≤ m.state_count := by
  simp only [Nfa.starRule] at h
  split at h
  · split at h
    · cases h
    next m1 hk =>
      cases h
      exact Nfa.kleene_star_cursors hk
  · cases h
    exact ⟨hI, le_refl _⟩

theorem Nfa.escaped_term_fields {nfa : Nfa} {input : List Nat} {idx : Nat}
    {m : Nfa} {j : Nat} (h : nfa.escaped_term input idx = .ok (m, j)) :
    m.start_idx = nfa.state_count ∧ m.accept_idx = nfa.state_count + 1 ∧
    m.state_count = nfa.state_count + 2 ∧ j = idx + 1 := by
  simp only [Nfa.escaped_term, Nfa.add_alphabet_term] at h
  split at h
  · cases h
  next b hb =>
    split at h
    · split at h
      · cases h
      next m1 ha =>
        cases h
        obtain ⟨h1, h2, h3, -⟩ := Nfa.add_term_fields ha
        exact ⟨h1, h2, h3, rfl⟩
    · split at h
      · split at h
        · cases h
        next m1 ha =>
          cases h
          obtain ⟨h1, h2, h3, -⟩ := Nfa.add_term_fields ha
          exact ⟨h1, h2, h3, rfl⟩
      · split at h
        · split at h
          · cases h
          next m1 ha =>
            cases h
            obtain ⟨h1, h2, h3, -⟩ := Nfa.add_term_fields ha
            exact ⟨h1, h2, h3, rfl⟩
        · cases h

theorem Nfa.term_cursors {nfa : Nfa} {input : List Nat} {idx : Nat}
    {m : Nfa} {j : Nat} (hI : nfa.cursorsOk)
    (h : nfa.term input idx = .ok (m, j)) :
    m.cursorsOk ∧ nfa.state_count ≤ m.state_count := by
  simp only [Nfa.term, Nfa.add_alphabet_term, Nfa.add_empty_term] at h
  split at h
  · cases h
    exact ⟨hI, le_refl _⟩
  next b hb =>
    split at h
    · -- backslash: escaped term then the star rule
      split at h
      · cases h
      next m1 idx2 hesc =>
        obtain ⟨h1, h2, h3, -⟩ := Nfa.escaped_term_fields hesc
        have hI1 : m1.cursorsOk := Or.inl ⟨by omega, by omega⟩
        obtain ⟨hIm, hle⟩ := Nfa.starRule_cursors hI1 h
        exact ⟨hIm, by omega⟩
    · split at h
      · -- alphabet byte: symbol fragment then the star rule
        split at h
        · cases h
        next m1 ha =>
          obtain ⟨hI1, hle1⟩ := Nfa.add_term_cursors ha
          obtain ⟨hIm, hle⟩ := Nfa.starRule_cursors hI1 h
          exact ⟨hIm, le_trans hle1 hle⟩
      · -- any other byte: empty-string fragment, no consumption
        split at h
        · cases h
        next m1 ha =>
          cases h
          exact Nfa.add_term_cursors ha

/-! ### The concatenation operation -/

theorem Nfa.productLoop_frame : ∀ (fuel : Nat) (nfa : Nfa) (la i : Nat) (r : Nfa),
    nfa.productLoop fuel la i = .ok r →
    r.state_count = nfa.state_count ∧ r.accept_idx = nfa.accept_idx ∧
    r.start_idx = nfa.start_idx ∧ r.states.length = nfa.states.length ∧
    ∀ k, k ≠ la → r.states.get? k = nfa.states.get? k := by
  intro fuel
  induction fuel with
  | zero =>
    intro nfa la i r h
    simp only [Nfa.productLoop] at h
    cases h
  | succ f ih =>
    intro nfa la i r h
    simp only [Nfa.productLoop] at h
    split at h
    · cases h
    next src hsrc =>
      split at h
      · split at h
        · cases h
        next t ht =>
          split at h
          · cases h
          next dst hdst =>
            split at h
            · cases h
            next dst2 hadd =>
              obtain ⟨h1, h2, h3, h4, h5⟩ := ih _ _ _ _ h
              refine ⟨h1, h2, h3, by simpa [Nfa.setState] using h4, fun k hk => ?_⟩
              rw [h5 k hk]
              exact List.get?_set_ne dst2 nfa.states (fun he => hk he.symm) |>.symm ▸ rfl
      · cases h
        exact ⟨rfl, rfl, rfl, rfl, fun k _ => rfl⟩

theorem Nfa.productLoop_spec : ∀ (fuel : Nat) (nfa : Nfa) (la i : Nat) (src dst : State),
    nfa.getState nfa.start_idx = .ok src →
    nfa.getState la = .ok dst →
    la ≠ nfa.start_idx →
    src.transition_count ≤ src.transitions.length →
    i ≤ src.transition_count →
    dst.transition_count + (src.transition_count - i) ≤ dst.transitions.length →
    src.transition_count - i < fuel →
    nfa.productLoop fuel la i =
      .ok (nfa.setState la
        (dst.pushMany ((src.transitions.take src.transition_count).drop i))) := by
  intro fuel
  induction fuel with
  | zero =>
    intro nfa la i src dst hsrc hdst hne hsc hi hcap hfuel
    omega
  | succ f ih =>
    intro nfa la i src dst hsrc hdst hne hsc hi hcap hfuel
    simp only [Nfa.productLoop, hsrc]
    by_cases hlt : i < src.transition_count
    · rw [if_pos hlt]
      -- the transition read from the source state
      have hit : i < src.transitions.length := by omega
      cases hg : src.transitions.get? i with
      | none =>
        exact absurd (List.get?_eq_none.mp hg) (by omega)
      | some t =>
        have hg' : src.transitions[i]? = some t := by
          rw [← List.get?_eq_getElem? src.transitions i]; exact hg
        have hread : src.getTransition i = .ok t := by
          unfold State.getTransition
          rw [List.get?_eq_getElem? src.transitions i, hg']
        have hdcap : dst.transition_count < dst.transitions.length := by omega
        have hteta : Transition.mk t.on_character t.to_state_idx = t := rfl
        simp only [hread, hdst, State.add_transition_ok hdcap, hteta]
        have hla : la < nfa.states.length := (Nfa.getState_ok hdst).2
        have hrec := ih (nfa.setState la (dst.pushT t)) la (i + 1) src (dst.pushT t)
          (by rw [Nfa.setState_start_idx, Nfa.getState_setState_ne _ hne]; exact hsrc)
          (Nfa.getState_setState_self _ hla)
          (by rw [Nfa.setState_start_idx]; exact hne)
          hsc (by omega)
          (by simp only [State.pushT, List.length_set]; omega)
          (by omega)
        rw [hrec]
        -- fold one copied transition into the pushMany accumulator
        have hlen : i < (src.transitions.take src.transition_count).length := by
          rw [List.length_take]; omega
        have htake : (src.transitions.take src.transition_count)[i] = t := by
          have h1 : (src.transitions.take src.transition_count)[i]? = some t := by
            rw [List.getElem?_take, if_pos hlt, ← List.get?_eq_getElem?]
            exact hg
          rw [List.getElem?_eq_getElem hlen] at h1
          exact Option.some.inj h1
        have hdrop : (src.transitions.take src.transition_count).drop i =
            t :: (src.transitions.take src.transition_count).drop (i + 1) := by
          rw [List.drop_eq_getElem_cons hlen, htake]
        rw [hdrop]
        have hpush : (dst.pushT t).pushMany
              ((src.transitions.take src.transition_count).drop (i + 1)) =
            dst.pushMany (t :: (src.transitions.take src.transition_count).drop (i + 1)) := rfl
        rw [hpush]
        -- setting the same index twice collapses
        simp only [Nfa.setState, List.set_set]
    · rw [if_neg hlt]
      have hieq : i = src.transition_count := by omega
      have hdropnil : (src.transitions.take src.transition_count).drop i = [] := by
        apply List.drop_eq_nil_of_le
        rw [List.length_take]; omega
      rw [hdropnil]
      have : dst.pushMany [] = dst := rfl
      rw [this]
      have hset : nfa.states.set la dst = nfa.states :=
        List.set_self _ _ _ (Nfa.getState_ok hdst).1
      simp only [Nfa.setState, hset]

theorem Nfa.product_frame {nfa : Nfa} {ls la : Nat} {r : Nfa}
    (h : nfa.product ls la = .ok r) :
    r.state_count = nfa.state_count ∧ r.accept_idx = nfa.accept_idx ∧
    r.start_idx = ls ∧ r.states.length = nfa.states.length ∧
    ∀ k, k ≠ la → k ≠ nfa.start_idx → r.states.get? k = nfa.states.get? k := by
  simp only [Nfa.product] at h
  split at h
  · cases h
  next nfaL hloop =>
    split at h
    · cases h
    next src2 hs =>
      cases h
      obtain ⟨h1, h2, h3, h4, h5⟩ := Nfa.productLoop_frame _ _ _ _ _ hloop
      refine ⟨h1, h2, rfl, by simpa [Nfa.setState] using h4, fun k hk hk2 => ?_⟩
      have hkL : k ≠ nfaL.start_idx := by rw [h3]; exact hk2
      calc ((nfaL.setState nfaL.start_idx { src2 with transition_count := 0 }).states.get? k)
          = nfaL.states.get? k := List.get?_set_ne _ _ (fun he => hkL he.symm)
        _ = nfa.states.get? k := h5 k hk

theorem Nfa.product_eq {nfa : Nfa} {la : Nat} {src dst : State} (ls : Nat)
    (hsrc : nfa.getState nfa.start_idx = .ok src)
    (hdst : nfa.getState la = .ok dst)
    (hne : la ≠ nfa.start_idx)
    (hlen : src.transitions.length = TRANSITIONS_PER_STATE)
    (hsc : src.transition_count ≤ src.transitions.length)
    (hcap : dst.transition_count + src.transition_count ≤ dst.transitions.length) :
    nfa.product ls la = .ok
      { states := (nfa.states.set la
            (dst.pushMany (src.transitions.take src.transition_count))).set
          nfa.start_idx { src with transition_count := 0 }
        state_count := nfa.state_count
        accept_idx := nfa.accept_idx
        start_idx := ls } := by
  have hloop := Nfa.productLoop_spec (TRANSITIONS_PER_STATE + 2) nfa la 0 src dst
    hsrc hdst hne hsc (Nat.zero_le _) (by omega)
    (by simp only [TRANSITIONS_PER_STATE] at hlen ⊢; omega)
  rw [List.drop_zero] at hloop
  simp only [Nfa.product, hloop]
  have hstart : (nfa.setState la (dst.pushMany (src.transitions.take src.transition_count))).start_idx = nfa.start_idx := rfl
  rw [hstart]
  have hget : (nfa.setState la
      (dst.pushMany (src.transitions.take src.transition_count))).getState nfa.start_idx = .ok src := by
    rw [Nfa.getState_setState_ne _ hne]
    exact hsrc
  rw [hget]
  rfl

/-! ### The cursor invariant through the recursive-descent parser -/

theorem parser_cursors : ∀ fuel : Nat,
    (∀ nfa input idx m j, Nfa.cursorsOk nfa →
       Nfa.expr fuel nfa input idx = .ok (m, j) →
       m.cursorsOk ∧ nfa.state_count ≤ m.state_count) ∧
    (∀ nfa input idx m j, Nfa.cursorsOk nfa →
       Nfa.exprLoop fuel nfa input idx = .ok (m, j) →
       m.cursorsOk ∧ nfa.state_count ≤ m.state_count) ∧
    (∀ nfa input idx m j, Nfa.cursorsOk nfa →
       Nfa.rest fuel nfa input idx = .ok (m, j) →
       m.cursorsOk ∧ nfa.state_count ≤ m.state_count) ∧
    (∀ nfa input idx m j, Nfa.cursorsOk nfa →
       Nfa.group fuel nfa input idx = .ok (m, j) →
       m.cursorsOk ∧ nfa.state_count ≤ m.state_count) ∧
    (∀ nfa input idx m j, Nfa.cursorsOk nfa →
       Nfa.alternate fuel nfa input idx = .ok (m, j) →
       m.cursorsOk ∧ nfa.state_count ≤ m.state_count) := by
  intro fuel
  induction fuel with
  | zero =>
    refine ⟨?_, ?_, ?_, ?_, ?_⟩ <;>
      (intro nfa input idx m j hI h;
       simp only [Nfa.expr_zero, Nfa.exprLoop_zero, Nfa.rest_zero, Nfa.group_zero,
         Nfa.alternate_zero] at h;
       cases h)
  | succ f ih =>
    obtain ⟨ihE, ihL, ihR, ihG, ihA⟩ := ih
    refine ⟨?_, ?_, ?_, ?_, ?_⟩
    · -- expr: a term, then the loop
      intro nfa input idx m j hI h
      rw [Nfa.expr_succ] at h
      split at h
      · cases h
      next m1 idx1 hterm =>
        obtain ⟨hI1, hle1⟩ := Nfa.term_cursors hI hterm
        obtain ⟨hIm, hle⟩ := ihL _ _ _ _ _ hI1 h
        exact ⟨hIm, le_trans hle1 hle⟩
    · -- exprLoop
      intro nfa input idx m j hI h
      rw [Nfa.exprLoop_succ] at h
      split at h
      · split at h
        · cases h
        next m1 idx1 hrest =>
          obtain ⟨hI1, hle1⟩ := ihR _ _ _ _ _ hI hrest
          split at h
          · cases h
            exact ⟨hI1, hle1⟩
          · obtain ⟨hIm, hle⟩ := ihL _ _ _ _ _ hI1 h
            exact ⟨hIm, le_trans hle1 hle⟩
      · cases h
        exact ⟨hI, le_refl _⟩
    · -- rest: group, alternation, or implicit concatenation
      intro nfa input idx m j hI h
      rw [Nfa.rest_succ] at h
      split at h
      · exact ihG _ _ _ _ _ hI h
      · split at h
        · exact ihA _ _ _ _ _ hI h
        · split at h
          · cases h
          next m1 idx1 hterm =>
            split at h
            · cases h
            next m2 hprod =>
              cases h
              obtain ⟨hI1, hle1⟩ := Nfa.term_cursors hI hterm
              obtain ⟨hsc, hacc, hstart, -, -⟩ := Nfa.product_frame hprod
              unfold Nfa.cursorsOk at hI hI1 ⊢
              omega
    · -- group
      intro nfa input idx m j hI h
      rw [Nfa.group_succ] at h
      split at h
      · cases h
      next b hb =>
        split at h
        · cases h
        · split at h
          · cases h
          next m1 idx1 hexpr =>
            obtain ⟨hI1, hle1⟩ := ihE _ _ _ _ _ hI hexpr
            split at h
            · split at h
              · cases h
              next m2 idx2 hstar =>
                obtain ⟨hI2, hle2⟩ := Nfa.starRule_cursors hI1 hstar
                split at h
                · cases h
                next m3 hprod =>
                  cases h
                  obtain ⟨hsc, hacc, hstart, -, -⟩ := Nfa.product_frame hprod
                  unfold Nfa.cursorsOk at hI hI2 ⊢
                  omega
            · cases h
    · -- alternate
      intro nfa input idx m j hI h
      rw [Nfa.alternate_succ] at h
      split at h
      · cases h
      next sc2 hu =>
        obtain ⟨rfl, -⟩ := u8chk_ok hu
        split at h
        · cases h
        next m1 idx1 hexpr =>
          have hI0 : Nfa.cursorsOk
              { states := nfa.states
                state_count := nfa.state_count + 2
                accept_idx := nfa.state_count
                start_idx := nfa.state_count } :=
            Or.inl ⟨show nfa.state_count < nfa.state_count + 2 by omega,
                    show nfa.state_count < nfa.state_count + 2 by omega⟩
          obtain ⟨hI1, hle1⟩ := ihE _ _ _ _ _ hI0 hexpr
          split at h
          · cases h
          next f_idx hu1 =>
            split at h
            · cases h
            next sc3 hu2 =>
              split at h
              · cases h
              next sti hg1 =>
                split at h
                · cases h
                next sti2 ha1 =>
                  split at h
                  · cases h
                  next sti3 hg2 =>
                    split at h
                    · cases h
                    next sti4 ha2 =>
                      split at h
                      · cases h
                      next stp hg3 =>
                        split at h
                        · cases h
                        next stp2 ha3 =>
                          split at h
                          · cases h
                          next sta hg4 =>
                            split at h
                            · cases h
                            next sta2 ha4 =>
                              cases h
                              obtain ⟨rfl, -⟩ := u8chk_ok hu1
                              obtain ⟨rfl, -⟩ := u8chk_ok hu2
                              refine ⟨Or.inl
                                ⟨show m1.state_count < m1.state_count + 2 by omega,
                                 show m1.state_count + 1 < m1.state_count + 2 by omega⟩, ?_⟩
                              show nfa.state_count ≤ m1.state_count + 2
                              simp only [Nfa.setState] at hle1
                              omega

/-! ### Byte-classification helper lemmas -/

theorem isAlphabetByte_props {b : Nat} (h : isAlphabetByte b = true) :
    b ≠ 92 ∧ b ≠ 40 ∧ b ≠ 124 ∧ b ≠ 42 := by
  simp only [isAlphabetByte, Bool.or_eq_true, Bool.and_eq_true, decide_eq_true_eq] at h
  omega

theorem isEscapableMeta_props {b : Nat} (h : isEscapableMeta b = true) :
    b ≠ 110 ∧ b ≠ 116 := by
  simp only [isEscapableMeta, Bool.or_eq_true, decide_eq_true_eq] at h
  omega

/-! ### Claim C1 -/

/-- Claim C1 (corrected).  The original claim — `state_count ≤ N` at all
times, with any allocation beyond `N` failing fatally at that allocation —
is false: the two unchecked `state_count += 2` allocations in `alternate`
can push `state_count` past `N`, and for odd `N` a compile can even return
successfully with `state_count > N` (see `C1_counterexample`).  What does
hold, and is proved here: an `add_term` allocation (the empty-string and
single-symbol fragments) whose fresh start state would lie at an index
`≥ N` fails fatally at that allocation with a state-index-out-of-bounds
panic, and `from_regex_bytes::<7>(b"a|b")` returns an automaton with
`state_count = 8 > 7`. -/
theorem C1_capacity :
    (∀ (nfa : Nfa) (c : Option Nat), nfa.states.length ≤ nfa.state_count →
       nfa.state_count + 1 ≤ 255 →
       nfa.add_term c = .error .stateIndexOutOfBounds) ∧
    Except.map Nfa.state_count (Nfa.from_regex_bytes 7 [97, 124, 98]) = .ok 8 := by
  constructor
  · intro nfa c hge hu8
    simp only [Nfa.add_term]
    rw [u8chk_le hu8]
    have hnone : nfa.states.get? nfa.state_count = none :=
      List.get?_eq_none.mpr hge
    simp only [Nfa.getState, hnone]
  · decide

/-- Witness for the universally quantified half of `C1_capacity`: with a
zero-capacity arena the very first fragment allocation is rejected. -/
theorem C1_witness :
    Nfa.add_term (Nfa.init 0) (some 97) = .error .stateIndexOutOfBounds :=
  C1_capacity.1 (Nfa.init 0) (some 97) (by decide) (by decide)

/-- Counterexample to claim C1 as stated: compiling `a|b` with `N = 7`
succeeds and returns `state_count = 8`, exceeding the arena bound with no
fatal error. -/
theorem C1_counterexample :
    Except.map Nfa.state_count (Nfa.from_regex_bytes 7 [97, 124, 98]) = .ok 8 ∧
    (7 : Nat) < 8 := by
  decide

/-! ### Claim C2 -/

/-- Claim C2 (corrected).  The original claim — `start_idx` and
`accept_idx` are strictly below `state_count` at all times, including in the
freshly initialized automaton and after compiling the empty input — fails
exactly in the no-states-yet configuration: the fresh automaton and the
result of compiling the empty input have `state_count = 0` with
`start_idx = accept_idx = 0` (see `C2_counterexample`).  The amended
invariant `cursorsOk` — both cursors strictly below `state_count`, or
`state_count = 0` with both cursors `0` — holds in the freshly initialized
automaton, is preserved by every fragment allocation and by every parse
step, and holds for the automaton returned by every successful compile. -/
theorem C2_cursor_bounds :
    (∀ N : Nat, (Nfa.init N).cursorsOk) ∧
    (∀ (nfa : Nfa) (c : Option Nat) (m : Nfa), nfa.add_term c = .ok m → m.cursorsOk) ∧
    (∀ nfa m : Nfa, nfa.kleene_star = .ok m → m.cursorsOk) ∧
    (∀ (fuel : Nat) (nfa : Nfa) (input : List Nat) (idx : Nat) (m : Nfa) (j : Nat),
       nfa.cursorsOk → Nfa.expr fuel nfa input idx = .ok (m, j) → m.cursorsOk) ∧
    (∀ (N : Nat) (input : List Nat) (nfa : Nfa),
       Nfa.from_regex_bytes N input = .ok nfa → nfa.cursorsOk) := by
  refine ⟨?_, ?_, ?_, ?_, ?_⟩
  · intro N
    exact Or.inr ⟨rfl, rfl, rfl⟩
  · intro nfa c m h
    exact (Nfa.add_term_cursors h).1
  · intro nfa m h
    exact (Nfa.kleene_star_cursors h).1
  · intro fuel nfa input idx m j hI h
    exact ((parser_cursors fuel).1 _ _ _ _ _ hI h).1
  · intro N input nfa h
    simp only [Nfa.from_regex_bytes] at h
    split at h
    · cases h
    next m1 j1 hexpr =>
      split at h
      · cases h
        exact ((parser_cursors _).1 _ _ _ _ _ (Or.inr ⟨rfl, rfl, rfl⟩) hexpr).1
      · cases h

/-- Witness for `C2_cursor_bounds`: the automaton compiled from `a` with
`N = 2` satisfies the cursor invariant. -/
theorem C2_witness : sampleA.cursorsOk :=
  C2_cursor_bounds.2.2.2.2 2 [97] sampleA (by decide)

/-- Counterexample to claim C2 as stated: compiling the empty input
succeeds and returns the untouched initial automaton, whose `start_idx` and
`accept_idx` are not strictly below its `state_count` of zero. -/
theorem C2_counterexample :
    Nfa.from_regex_bytes 4 [] = .ok (Nfa.init 4) ∧
    ¬ ((Nfa.init 4).start_idx < (Nfa.init 4).state_count ∧
       (Nfa.init 4).accept_idx < (Nfa.init 4).state_count) := by
  decide

/-! ### Claim C4 -/

/-- Claim C4 (corrected).  The original claim — `term` yields an
empty-string fragment at every position where the next byte is neither a
backslash nor an alphabet byte, including at end of input — is wrong about
end of input: there `term` returns the automaton completely unchanged,
allocating nothing (see `C4_counterexample`).  What holds: at end of input
`term` is the identity on the automaton and consumes nothing, and whenever
a next byte exists that is neither a backslash (92) nor an alphabet byte,
`term` allocates exactly the two-state empty-string fragment — one epsilon
transition from the new start state to the new accept state, both installed
as the current cursors — and consumes no input. -/
theorem C4_empty_term :
    ∀ (nfa : Nfa) (input : List Nat) (idx : Nat),
    (input.get? idx = none → nfa.term input idx = .ok (nfa, idx)) ∧
    (∀ (b : Nat) (st : State), input.get? idx = some b → b ≠ 92 →
      isAlphabetByte b = false →
      nfa.states.get? nfa.state_count = some st →
      st.transition_count < st.transitions.length →
      nfa.state_count + 2 ≤ 255 →
      nfa.term input idx = .ok
        ({ states := nfa.states.set nfa.state_count
             (st.pushT { on_character := none, to_state_idx := nfa.state_count + 1 })
           state_count := nfa.state_count + 2
           accept_idx := nfa.state_count + 1
           start_idx := nfa.state_count }, idx)) := by
  intro nfa input idx
  constructor
  · intro h
    simp only [Nfa.term, h]
  · intro b st hb h92 halpha hst hcap hu8
    simp only [Nfa.term, hb]
    rw [if_neg h92, if_neg (by simp [halpha]), Nfa.add_empty_term,
      Nfa.add_term_eq none (Nfa.getState_eq hst) hcap hu8]

/-- Witness for `C4_empty_term`: on input `)` at position 0 the parser
builds the two fresh states with one epsilon transition and stays at
position 0. -/
theorem C4_witness :
    Nfa.term (Nfa.init 2) [41] 0 = .ok
      ({ states := (Nfa.init 2).states.set (Nfa.init 2).state_count
           (State.default.pushT { on_character := none, to_state_idx := (Nfa.init 2).state_count + 1 })
         state_count := (Nfa.init 2).state_count + 2
         accept_idx := (Nfa.init 2).state_count + 1
         start_idx := (Nfa.init 2).state_count }, 0) :=
  (C4_empty_term (Nfa.init 2) [41] 0).2 41 State.default rfl (by decide) (by decide)
    (by decide) (by decide) (by decide)

/-- Counterexample to claim C4 as stated: at end of input `term` allocates
nothing — the automaton comes back unchanged with `state_count` still 0,
not extended by an empty-string fragment. -/
theorem C4_counterexample :
    Nfa.term (Nfa.init 4) [] 0 = .ok (Nfa.init 4, 0) ∧
    (Nfa.init 4).state_count = 0 := by
  decide

/-! ### Claim C8 -/

/-- Claim C8 (confirmed).  `from_regex_bytes` returns an automaton exactly
when the top-level `expr` parse returns having consumed every input byte;
when the parse stops at any other position the compile fails with the
"unexpected character" panic (the spec's `UnexpectedTrailingInput`) and no
automaton is returned. -/
theorem C8_trailing_input :
    ∀ (N : Nat) (input : List Nat),
    (∀ nfa : Nfa, Nfa.from_regex_bytes N input = .ok nfa ↔
       Nfa.expr (parseFuel input) (Nfa.init N) input 0 = .ok (nfa, input.length)) ∧
    (∀ (m : Nfa) (j : Nat),
       Nfa.expr (parseFuel input) (Nfa.init N) input 0 = .ok (m, j) →
       j ≠ input.length →
       Nfa.from_regex_bytes N input = .error .unexpectedCharacter) := by
  intro N input
  constructor
  · intro nfa
    constructor
    · intro h
      simp only [Nfa.from_regex_bytes] at h
      split at h
      · cases h
      next m1 j1 hexpr =>
        split at h
        · cases h
          next hj => rw [← hj]; exact hexpr
        · cases h
    · intro h
      simp [Nfa.from_regex_bytes, h]
  · intro m j hexpr hj
    simp only [Nfa.from_regex_bytes, hexpr]
    rw [if_neg hj]

/-- Witness for `C8_trailing_input`: on input `a)` the parse stops at
position 1 of 2, and the compile reports the trailing-input error. -/
theorem C8_witness :
    Nfa.from_regex_bytes 8 [97, 41] = .error .unexpectedCharacter :=
  (C8_trailing_input 8 [97, 41]).2 trailSample 1 (by decide) (by decide)

/-! ### Claim C10 -/

/-- Claim C10 (confirmed).  A successful `product last_start last_accept`
leaves `state_count` and `accept_idx` unchanged and leaves every state
other than the one at `last_accept` (which receives the copied transitions)
and the one at the old `start_idx` (whose transition count is cleared)
exactly as it was. -/
theorem C10_product_frame :
    ∀ (nfa : Nfa) (ls la : Nat) (r : Nfa),
    nfa.product ls la = .ok r →
    r.state_count = nfa.state_count ∧ r.accept_idx = nfa.accept_idx ∧
    ∀ k : Nat, k ≠ la → k ≠ nfa.start_idx →
      r.states.get? k = nfa.states.get? k := by
  intro nfa ls la r h
  obtain ⟨h1, h2, -, -, h5⟩ := Nfa.product_frame h
  exact ⟨h1, h2, h5⟩

/-- Witness for `C10_product_frame`: in the concrete concatenation step of
compiling `ab`, the states not named by the operation (here state 0 and
state 3) are untouched, as are `state_count` and `accept_idx`. -/
theorem C10_witness :
    prodOut.state_count = prodIn.state_count ∧
    prodOut.accept_idx = prodIn.accept_idx ∧
    prodOut.states.get? 0 = prodIn.states.get? 0 :=
  ⟨(C10_product_frame prodIn 0 1 prodOut (by decide)).1,
   (C10_product_frame prodIn 0 1 prodOut (by decide)).2.1,
   (C10_product_frame prodIn 0 1 prodOut (by decide)).2.2 0 (by decide) (by decide)⟩

/-! ### Claim C6 -/

/-- Claim C6 (confirmed).  A concatenation step copies every transition
currently on the state indexed by `start_idx` — all of
`transitions.take transition_count`, in order — onto the end of state
`last_accept_idx`'s transition list, then sets the transition count of the
state that was `start_idx` to zero (its transition slots are left in
place), and sets the automaton's `start_idx` to `last_start_idx`;
`state_count` and `accept_idx` are untouched.  The hypotheses are the
implicit preconditions of the Rust code: the two states are distinct (true
for every concatenation the parser performs, where `start_idx` is freshly
allocated), the source transition array has the fixed arena width, and the
destination has room for the copied transitions ("capacity permitting"). -/
theorem C6_concatenation :
    ∀ (nfa : Nfa) (ls la : Nat) (src dst : State),
    nfa.getState nfa.start_idx = .ok src →
    nfa.getState la = .ok dst →
    la ≠ nfa.start_idx →
    src.transitions.length = TRANSITIONS_PER_STATE →
    src.transition_count ≤ src.transitions.length →
    dst.transition_count + src.transition_count ≤ dst.transitions.length →
    nfa.product ls la = .ok
      { states := (nfa.states.set la
            (dst.pushMany (src.transitions.take src.transition_count))).set
          nfa.start_idx { src with transition_count := 0 }
        state_count := nfa.state_count
        accept_idx := nfa.accept_idx
        start_idx := ls } :=
  fun _ ls _ _ _ hsrc hdst hne hlen hsc hcap =>
    Nfa.product_eq ls hsrc hdst hne hlen hsc hcap

/-- Witness for `C6_concatenation`: the concatenation step of compiling
`ab` moves the single `b` transition from state 2 onto state 1 and clears
state 2's count. -/
theorem C6_witness : Nfa.product prodIn 0 1 = .ok prodOut :=
  C6_concatenation prodIn 0 1
    (State.default.pushT { on_character := some 98, to_state_idx := 3 })
    State.default
    (by decide) (by decide) (by decide) (by decide) (by decide) (by decide)

/-! ### Claim C9 -/

/-- Claim C9 (confirmed).  `escaped_term` succeeds exactly when a byte
follows the backslash and is `n`, `t`, or one of the escapable
metacharacters `$ ^ ( ) { } [ ] | ? * \`; on success it allocates a
single-symbol fragment labeled with the denoted byte (`\n` giving 10, `\t`
giving 9, a metacharacter giving itself) and consumes that byte.  A
backslash followed by any other byte fails with the unknown-escape panic,
and a backslash at end of input fails with the end-of-input panic. -/
theorem C9_escapes :
    ∀ (nfa : Nfa) (input : List Nat) (idx : Nat),
    (input.get? idx = none →
       nfa.escaped_term input idx = .error .unexpectedEndOfInputAfterEscape) ∧
    (∀ b : Nat, input.get? idx = some b → b ≠ 110 → b ≠ 116 →
       isEscapableMeta b = false →
       nfa.escaped_term input idx = .error .unknownEscapedCharacter) ∧
    (∀ (b : Nat) (st : State), input.get? idx = some b →
       (b = 110 ∨ b = 116 ∨ isEscapableMeta b = true) →
       nfa.states.get? nfa.state_count = some st →
       st.transition_count < st.transitions.length →
       nfa.state_count + 2 ≤ 255 →
       nfa.escaped_term input idx = .ok
         ({ states := nfa.states.set nfa.state_count
              (st.pushT { on_character := some (escapedByteValue b),
                          to_state_idx := nfa.state_count + 1 })
            state_count := nfa.state_count + 2
            accept_idx := nfa.state_count + 1
            start_idx := nfa.state_count }, idx + 1)) := by
  intro nfa input idx
  refine ⟨?_, ?_, ?_⟩
  · intro h
    simp only [Nfa.escaped_term, h]
  · intro b hb h110 h116 hmeta
    simp only [Nfa.escaped_term, hb]
    rw [if_neg h110, if_neg h116, if_neg (by simp [hmeta])]
  · intro b st hb hcase hst hcap hu8
    rcases hcase with rfl | rfl | hmeta
    · simp only [Nfa.escaped_term, hb, Nfa.add_alphabet_term, if_true]
      rw [Nfa.add_term_eq (some 10) (Nfa.getState_eq hst) hcap hu8]
      rfl
    · simp only [Nfa.escaped_term, hb, Nfa.add_alphabet_term, if_true]
      rw [if_neg (by decide)]
      rw [Nfa.add_term_eq (some 9) (Nfa.getState_eq hst) hcap hu8]
      rfl
    · obtain ⟨h110, h116⟩ := isEscapableMeta_props hmeta
      have hadd := Nfa.add_term_eq (some (escapedByteValue b))
        (Nfa.getState_eq hst) hcap hu8
      rw [show escapedByteValue b = b by simp [escapedByteValue, h110, h116]] at hadd
      simp only [Nfa.escaped_term, hb, Nfa.add_alphabet_term]
      rw [if_neg h110, if_neg h116, if_pos hmeta, hadd]
      simp [escapedByteValue, h110, h116]

/-- Witness for `C9_escapes`: the escape `\n` (backslash then byte 110)
yields a fragment labeled with the line-feed byte 10 and consumes the
escaped byte. -/
theorem C9_witness :
    Nfa.escaped_term (Nfa.init 4) [110] 0 = .ok
      ({ states := (Nfa.init 4).states.set 0
           (State.default.pushT { on_character := some 10, to_state_idx := 1 })
         state_count := 2
         accept_idx := 1
         start_idx := 0 }, 1) :=
  (C9_escapes (Nfa.init 4) [110] 0).2.2 110 State.default rfl (Or.inl rfl) rfl
    (by decide) (by decide)

/-! ### Claim C7 -/

/-- Claim C7 (confirmed).  For every byte `x` of the supported alphabet and
any arena that can hold the start state, compiling the one-byte input `[x]`
succeeds and yields the automaton whose start state (index 0) carries
exactly one transition — labeled `x` — to the accept state (index 1):
`transition_count` of the start state is 1 and its single used slot is the
transition `⟨some x, 1⟩`. -/
theorem C7_single_symbol :
    ∀ (N x : Nat), isAlphabetByte x = true → 1 ≤ N →
    Nfa.from_regex_bytes N [x] = .ok
      { states := (List.replicate N State.default).set 0
          (State.default.pushT { on_character := some x, to_state_idx := 1 })
        state_count := 2
        accept_idx := 1
        start_idx := 0 } ∧
    (State.default.pushT { on_character := some x, to_state_idx := 1 }).transition_count = 1 ∧
    (State.default.pushT { on_character := some x, to_state_idx := 1 }).transitions.get? 0 =
      some { on_character := some x, to_state_idx := 1 } := by
  intro N x halpha hN
  obtain ⟨hx92, hx40, hx124, hx42⟩ := isAlphabetByte_props halpha
  refine ⟨?_, rfl, rfl⟩
  have hget : (Nfa.init N).states.get? 0 = some State.default := by
    obtain ⟨N', rfl⟩ : ∃ N', N = N' + 1 := ⟨N - 1, by omega⟩
    rfl
  have hadd : (Nfa.init N).add_term (some x) = .ok
      { states := (Nfa.init N).states.set 0
          (State.default.pushT { on_character := some x, to_state_idx := 1 })
        state_count := 2
        accept_idx := 1
        start_idx := 0 } :=
    Nfa.add_term_eq (some x) (Nfa.getState_eq hget) (by decide)
      (by simp [Nfa.init])
  have hterm : (Nfa.init N).term [x] 0 = .ok
      ({ states := (Nfa.init N).states.set 0
           (State.default.pushT { on_character := some x, to_state_idx := 1 })
         state_count := 2
         accept_idx := 1
         start_idx := 0 }, 1) := by
    simp only [Nfa.term, show ([x] : List Nat).get? 0 = some x from rfl]
    rw [if_neg hx92, if_pos halpha]
    simp only [Nfa.add_alphabet_term, hadd]
    simp only [Nfa.starRule, show ([x] : List Nat).get? 1 = none from rfl]
    rw [if_neg (by decide)]
  have hfuel : parseFuel [x] = 11 + 1 := rfl
  simp only [Nfa.from_regex_bytes, hfuel, Nfa.expr_succ, hterm]
  rw [show (11 : Nat) = 10 + 1 from rfl, Nfa.exprLoop_succ,
    if_neg (show ¬ (1 : Nat) < ([x] : List Nat).length by simp)]
  rfl

/-- Witness for `C7_single_symbol`: compiling `a` with `N = 2` gives the
two-state automaton whose start state carries exactly the transition
labeled 97 to the accept state. -/
theorem C7_witness :
    Nfa.from_regex_bytes 2 [97] = .ok
      { states := (List.replicate 2 State.default).set 0
          (State.default.pushT { on_character := some 97, to_state_idx := 1 })
        state_count := 2
        accept_idx := 1
        start_idx := 0 } ∧
    (State.default.pushT { on_character := some 97, to_state_idx := 1 }).transition_count = 1 ∧
    (State.default.pushT { on_character := some 97, to_state_idx := 1 }).transitions.get? 0 =
      some { on_character := some 97, to_state_idx := 1 } :=
  C7_single_symbol 2 97 (by decide) (by decide)

/-! ### Claim C5 -/

/-- Claim C5 (confirmed).  When a `*` immediately follows an alphabet-byte
term inside `rest`, the parse is exactly: build the two-state fragment for
that single term, apply the Kleene-star construction to that fragment
alone, and only then concatenate (`product`) the starred fragment onto the
fragment recorded before the term was parsed — the star is never applied to
the concatenation or alternation built so far, whose cursors appear only as
the `product` arguments after the star has been taken. -/
theorem C5_star_binds_term :
    ∀ (fuel : Nat) (nfa : Nfa) (input : List Nat) (idx b : Nat),
    input.get? idx = some b →
    isAlphabetByte b = true →
    input.get? (idx + 1) = some 42 →
    Nfa.rest (fuel + 1) nfa input idx =
      (match nfa.add_alphabet_term b with
       | .error e => .error e
       | .ok m =>
         match m.kleene_star with
         | .error e => .error e
         | .ok m2 =>
           match m2.product nfa.start_idx nfa.accept_idx with
           | .error e => .error e
           | .ok m3 => .ok (m3, idx + 1 + 1)) := by
  intro fuel nfa input idx b hb halpha hstar
  obtain ⟨hb92, hb40, hb124, hb42⟩ := isAlphabetByte_props halpha
  rw [Nfa.rest_succ]
  rw [if_neg (by rw [hb]; simp only [Option.some.injEq]; omega),
    if_neg (by rw [hb]; simp only [Option.some.injEq]; omega)]
  have hterm : nfa.term input idx =
      (match nfa.add_alphabet_term b with
       | .error e => .error e
       | .ok m => m.starRule input (idx + 1)) := by
    simp only [Nfa.term, hb]
    rw [if_neg hb92, if_pos halpha]
  rw [hterm]
  cases hadd : nfa.add_alphabet_term b with
  | error e => rfl
  | ok m =>
    have hsr : m.starRule input (idx + 1) =
        (match m.kleene_star with
         | .error e => .error e
         | .ok m2 => .ok (m2, idx + 1 + 1)) := by
      simp only [Nfa.starRule, hstar]
      simp
    simp only [hsr]
    cases hk : m.kleene_star with
    | error e => rfl
    | ok m2 =>
      cases hp : m2.product nfa.start_idx nfa.accept_idx with
      | error e => rfl
      | ok m3 => rfl

/-- Witness for `C5_star_binds_term`: parsing `b*` at position 1 of `ab*`
from the compiled-`a` automaton stars the `b` fragment alone and then
concatenates it, giving `starSample`. -/
theorem C5_witness :
    Nfa.rest 9 sampleA16 [97, 98, 42] 1 = .ok (starSample, 3) :=
  C5_star_binds_term 8 sampleA16 [97, 98, 42] 1 98 (by decide) (by decide) (by decide)

/-! ### Claim C3 -/

/-- Claim C3 (corrected).  The original claim — an alternation allocates
exactly the two states `i` and `f` beyond those of the right-hand compile —
misses two further states: before compiling the right-hand side,
`alternate` silently allocates a placeholder pair (bumping `state_count` by
two and parking both cursors on the old `state_count`), and these states
are the fragment the right-hand `expr` starts from (see
`C3_counterexample`).  What holds, proved here: `alternate` first installs
the placeholder fragment (`start_idx = accept_idx =` old `state_count`,
`state_count` two higher), compiles the right-hand expression from it, then
allocates exactly two further states `i` (the new `state_count`) and
`f = i + 1`, adds epsilon transitions `i → prevStart` and `i → start` of
the right-hand result, `prevAccept → f` and the right-hand accept `→ f`,
and finishes with `start_idx = i`, `accept_idx = f` — so an alternation
allocates four states of its own beyond the right-hand compile. -/
theorem C3_alternate :
    ∀ (fuel : Nat) (nfa : Nfa) (input : List Nat) (idx : Nat) (m : Nfa) (j : Nat)
      (sti stp sta : State),
    nfa.state_count + 2 ≤ 255 →
    Nfa.expr fuel { nfa with start_idx := nfa.state_count,
                             accept_idx := nfa.state_count,
                             state_count := nfa.state_count + 2 } input (idx + 1) =
      .ok (m, j) →
    m.state_count + 2 ≤ 255 →
    m.states.get? m.state_count = some sti →
    sti.transition_count + 2 ≤ sti.transitions.length →
    m.states.get? nfa.accept_idx = some stp →
    stp.transition_count < stp.transitions.length →
    m.states.get? m.accept_idx = some sta →
    sta.transition_count < sta.transitions.length →
    nfa.accept_idx ≠ m.state_count →
    m.accept_idx ≠ m.state_count →
    m.accept_idx ≠ nfa.accept_idx →
    Nfa.alternate (fuel + 1) nfa input idx = .ok
      ({ states := ((m.states.set m.state_count
             ((sti.pushT { on_character := none, to_state_idx := nfa.start_idx }).pushT
               { on_character := none, to_state_idx := m.start_idx })).set
             nfa.accept_idx
             (stp.pushT { on_character := none, to_state_idx := m.state_count + 1 })).set
             m.accept_idx
             (sta.pushT { on_character := none, to_state_idx := m.state_count + 1 })
         state_count := m.state_count + 2
         accept_idx := m.state_count + 1
         start_idx := m.state_count }, j) := by
  intro fuel nfa input idx m j sti stp sta hu8a hexpr hu8b hsti hcapi hstp hcapp
    hsta hcapa hne1 hne2 hne3
  have hleni : m.state_count < m.states.length := (List.get?_eq_some.mp hsti).1
  rw [Nfa.alternate_succ]
  simp only [u8chk_le hu8a, hexpr,
    u8chk_le (show m.state_count + 1 ≤ 255 by omega), u8chk_le hu8b]
  have hg1 : ({ m with state_count := m.state_count + 2 } : Nfa).getState
      m.state_count = .ok sti := Nfa.getState_eq hsti
  simp only [hg1,
    State.add_transition_ok (show sti.transition_count < sti.transitions.length by omega)]
  have hg2 : (({ m with state_count := m.state_count + 2 } : Nfa).setState m.state_count
      (sti.pushT { on_character := none, to_state_idx := nfa.start_idx })).getState
      m.state_count =
      .ok (sti.pushT { on_character := none, to_state_idx := nfa.start_idx }) :=
    Nfa.getState_setState_self _ hleni
  simp only [hg2]
  have hcapi2 :
      (sti.pushT { on_character := none, to_state_idx := nfa.start_idx }).transition_count <
      (sti.pushT { on_character := none, to_state_idx := nfa.start_idx }).transitions.length := by
    simp only [State.pushT, List.length_set]
    omega
  simp only [State.add_transition_ok hcapi2]
  have hg3 : ((({ m with state_count := m.state_count + 2 } : Nfa).setState m.state_count
      (sti.pushT { on_character := none, to_state_idx := nfa.start_idx })).setState
      m.state_count
      ((sti.pushT { on_character := none, to_state_idx := nfa.start_idx }).pushT
        { on_character := none, to_state_idx := m.start_idx })).getState nfa.accept_idx =
      .ok stp := by
    rw [Nfa.getState_setState_ne _ (Ne.symm hne1), Nfa.getState_setState_ne _ (Ne.symm hne1)]
    exact Nfa.getState_eq hstp
  simp only [hg3, State.add_transition_ok hcapp]
  have hg4 : (((({ m with state_count := m.state_count + 2 } : Nfa).setState m.state_count
      (sti.pushT { on_character := none, to_state_idx := nfa.start_idx })).setState
      m.state_count
      ((sti.pushT { on_character := none, to_state_idx := nfa.start_idx }).pushT
        { on_character := none, to_state_idx := m.start_idx })).setState nfa.accept_idx
      (stp.pushT { on_character := none, to_state_idx := m.state_count + 1 })).getState
      m.accept_idx = .ok sta := by
    rw [Nfa.getState_setState_ne _ (Ne.symm hne3), Nfa.getState_setState_ne _ (Ne.symm hne2),
      Nfa.getState_setState_ne _ (Ne.symm hne2)]
    exact Nfa.getState_eq hsta
  simp only [hg4, State.add_transition_ok hcapa]
  simp only [List.set_set]

/-- Witness for `C3_alternate`: running `alternate` from the compiled-`a`
automaton on `a|b` (the right-hand compile from the placeholder fragment
yields `rhsSample`) produces `altSample` — the placeholder pair plus the
`b` fragment plus `i` and `f`. -/
theorem C3_witness :
    Nfa.alternate 9 sampleA16 [97, 124, 98] 1 = .ok (altSample, 3) :=
  C3_alternate 8 sampleA16 [97, 124, 98] 1 rhsSample 3
    State.default State.default State.default
    (by decide) (by decide) (by decide) (by decide) (by decide) (by decide)
    (by decide) (by decide) (by decide) (by decide) (by decide) (by decide)

/-- Counterexample to claim C3 as stated: from the compiled-`a` automaton
(`state_count = 2`), compiling the right-hand `b` of `a|b` on its own
reaches `state_count = 4`, yet `alternate` returns `state_count = 8` — six
states beyond the previous fragment, not the claimed
two-beyond-the-right-hand-compile (which would give 6). -/
theorem C3_counterexample :
    Except.map (fun p => p.1.state_count) (Nfa.alternate 9 sampleA16 [97, 124, 98] 1) =
      .ok 8 ∧
    Except.map (fun p => p.1.state_count) (Nfa.expr 9 sampleA16 [97, 124, 98] 2) =
      .ok 4 ∧
    (8 : Nat) ≠ 4 + 2 := by
  refine ⟨by decide, by decide, by decide⟩

end RegexNfa
